import Mathlib

/-!
Verification of the overlap-resolution and codon-classification engine of
`polyDivExtract` (files `ffExtract.hpp` / `ffExtract.cpp`) against its
natural-language specification.  The C++ code is shallowly embedded:
strings become `List Char`, `std::vector<uint64_t>` becomes `List Nat`,
`size_t` arithmetic is `Nat` with explicit wrap where underflow can occur,
and operations that throw or are undefined behaviour in C++ return `none`.
-/

set_option maxHeartbeats 1000000

namespace PolyDivExtract

/-- Null character: the value a C++ `std::string::operator[]` read at the
index equal to `size()` yields (well defined since C++11).  The codon access
`codon[1]` in `FFextract::getFFsites_` hits this case when the trailing
codon is shorter than two bases. -/
def nullChar : Char := Char.ofNat 0

/-- Site record appended to `FFextract::ffSites_` (ffExtract.cpp lines
488-500): chromosome, FBgn identifier and the genomic position written into
one tab-separated output line. -/
structure Site where
  chr : List Char
  fbgn : List Char
  pos : Nat
deriving DecidableEq

/-- Diagnostic lines written to `FFextract::logFile_` inside
`getNextRecord_` (lines 219, 228, 238, 262, 269, 280 and the corresponding
lines of the other orientation branches). -/
inductive LogEntry where
  | switchedChrom (oldChr newChr fbgn : List Char)
  | emptyPrev (fbgn : List Char)
  | overlapDetected (f1 f2 : List Char)
  | bothDeleted (f1 f2 : List Char)
  | prevDeleted (f1 f2 : List Char)
  | candDeleted (f1 f2 : List Char)
deriving DecidableEq

/-- Mutable state of the `FFextract` object (ffExtract.hpp): current
sequence, parallel genomic position vector, stored end coordinate,
chromosome, FBgn number, pending deletion offsets and the accumulated site
records; the log file is modelled as a list of entries. -/
structure FFState where
  sequence_ : List Char
  positions_ : List Nat
  end_ : Nat
  chr_ : List Char
  fbgn_ : List Char
  delStart_ : Nat
  delLength_ : Nat
  ffSites_ : List Site
  log_ : List LogEntry
deriving DecidableEq

/-- Codon classification branch structure of `FFextract::getFFsites_`
(ffExtract.cpp lines 484-502).  The decision depends on the middle base
and, in the `'T'` and final `else` branches, on the first base; the third
base is never examined.  Middle characters other than `'A'`, `'T'`, `'C'`
fall into the final `else` branch (written for `'G'` in the source). -/
def isFourFold (b0 b1 : Char) : Bool :=
  if b1 = 'A' then false
  else if b1 = 'T' then b0 == 'C' || b0 == 'G'
  else if b1 = 'C' then true
  else b0 == 'C' || b0 == 'G'

/-- Loop of `FFextract::getFFsites_` (lines 482-503): walk the sequence
three bases at a time; `codon = substr(i,3)` may be shorter than three
characters at the end, in which case `codon[1]` reads the null character
(C++ `operator[]` at `size()`).  An emission reads `positions_[i+3]`,
modelled with `List.get?` so that an out-of-bounds vector access yields
`none`. -/
def ffLoop (chr fbgn : List Char) : List Char → List Nat → Option (List Site)
  | [], _ => some []
  | [b0], pos =>
    if isFourFold b0 nullChar then (pos.get? 3).map (fun p => [⟨chr, fbgn, p⟩]) else some []
  | [b0, b1], pos =>
    if isFourFold b0 b1 then (pos.get? 3).map (fun p => [⟨chr, fbgn, p⟩]) else some []
  | b0 :: b1 :: _ :: rest, pos =>
    if isFourFold b0 b1 then
      match pos.get? 3 with
      | none => none
      | some p => (ffLoop chr fbgn rest (pos.drop 3)).map (fun l => ⟨chr, fbgn, p⟩ :: l)
    else ffLoop chr fbgn rest (pos.drop 3)

/-- `FFextract::getFFsites_`: classify the current record and return the
site records it appends to `ffSites_`, or `none` when a `positions_` access
is out of bounds. -/
def getFFsites (chr fbgn : List Char) (seq : List Char) (pos : List Nat) : Option (List Site) :=
  ffLoop chr fbgn seq pos

/-- Trailing-overlap count for a forward-stored previous record: the loops
at ffExtract.cpp lines 241-247 and 357-363 walk `positions_` from `rbegin`
and count entries `>=` the candidate boundary, stopping at the first
smaller one. -/
def overlapCountFwd (ps : List Nat) (bound : Nat) : Nat :=
  (ps.reverse.takeWhile (fun p => decide (bound ≤ p))).length

/-- Leading-overlap count for a complement-stored previous record: the
loops at lines 294-300 and 410-416 walk `positions_` from `begin` counting
entries `>=` the candidate boundary, stopping at the first smaller one. -/
def overlapCountRev (ps : List Nat) (bound : Nat) : Nat :=
  (ps.takeWhile (fun p => decide (bound ≤ p))).length

/-- Truncation length from the overlap count, lines 248, 301, 364 and 417:
`delLength_ = delLength_ + (delLength_ % 3)`. -/
def delLengthFun (oc : Nat) : Nat := oc + oc % 3

/-- Two to the sixty-fourth: `size_t` arithmetic in the source is 64 bit. -/
def szMod : Nat := 2 ^ 64

/-- `size_t` subtraction with wrap-around, used where the source subtracts
lengths that can underflow (line 388). -/
def subSz (a b : Nat) : Nat := (a + szMod - b) % szMod

/-- `std::string::resize(size() - delLength_)` (lines 252, 283, 368, 399):
when `delLength_` exceeds the current size the `size_t` difference wraps to
a huge value and `resize` throws `std::length_error`; modelled as `none`. -/
def resizeDown (s : List Char) (delLen : Nat) : Option (List Char) :=
  if delLen ≤ s.length then some (s.take (s.length - delLen)) else none

/-- `std::string::erase(pos, len)` applied to the freshly read sequence
line (line 473): throws `std::out_of_range` when `pos` exceeds the size,
otherwise removes `min(len, size - pos)` characters. -/
def eraseCpp (s : List Char) (p n : Nat) : Option (List Char) :=
  if p ≤ s.length then some (s.take p ++ s.drop (p + n)) else none

/-- `end_` computation of lines 222 and 230:
`(positions_[0] < positions_.back()) ? positions_.back() : positions_[0]`;
undefined behaviour (`none`) on an empty vector. -/
def endOf : List Nat → Option Nat
  | [] => none
  | x :: xs => some (if x < (x :: xs).getLastD 0 then (x :: xs).getLastD 0 else x)

/-- No-overlap disposition (lines 343-351 and 459-467): classify and flush
the pending record, adopt the candidate wholesale, set `end_` to the
supplied boundary (`positions_.back()` for a forward candidate,
`positions_[0]` for a complemented one) and reset `delLength_`. -/
def flushAdopt (st : FFState) (cp : List Nat) (curChr curFBgn : List Char) (newEnd : Nat) :
    Option FFState :=
  match getFFsites st.chr_ st.fbgn_ st.sequence_ st.positions_ with
  | none => none
  | some sites =>
    some { st with
        ffSites_ := st.ffSites_ ++ sites, positions_ := cp, end_ := newEnd, chr_ := curChr, fbgn_ := curFBgn, delLength_ := 0 }

/-- Overlap resolution with a forward candidate and a forward-stored
previous record (ffExtract.cpp lines 239-291). -/
def resolveFwdFwd (st : FFState) (cp : List Nat) (curChr curFBgn : List Char) (c0 : Nat) :
    Option FFState :=
  let oc := overlapCountFwd st.positions_ c0
  let dl := delLengthFun oc
  let lg := st.log_ ++ [LogEntry.overlapDetected st.fbgn_ curFBgn]
  if dl < st.positions_.length ∧ dl < cp.length then
    let ds := st.positions_.length - dl
    let ps2 := st.positions_.take (st.positions_.length - dl)
    match resizeDown st.sequence_ dl with
    | none => none
    | some sq2 =>
      match getFFsites st.chr_ st.fbgn_ sq2 ps2 with
      | none => none
      | some sites =>
        let cp2 := cp.drop dl
        match cp2.getLast? with
        | none => none
        | some e2 =>
          some { st with
              delLength_ := dl, delStart_ := ds, sequence_ := sq2, positions_ := cp2, end_ := e2, chr_ := curChr, fbgn_ := curFBgn, ffSites_ := st.ffSites_ ++ sites, log_ := lg }
  else if st.positions_.length ≤ dl then
    if cp.length ≤ dl then
      some { st with
          delLength_ := dl, delStart_ := 0, positions_ := [], sequence_ := [], log_ := lg ++ [LogEntry.bothDeleted st.fbgn_ curFBgn] }
    else
      let ds := cp.length - dl
      let cp2 := cp.drop dl
      match cp2.getLast? with
      | none => none
      | some e2 =>
        some { st with
            delLength_ := dl, delStart_ := ds, positions_ := cp2, end_ := e2, chr_ := curChr, fbgn_ := curFBgn, log_ := lg ++ [LogEntry.prevDeleted st.fbgn_ curFBgn] }
  else
    let ps2 := st.positions_.take (st.positions_.length - dl)
    match resizeDown st.sequence_ dl with
    | none => none
    | some sq2 =>
      match getFFsites st.chr_ st.fbgn_ sq2 ps2 with
      | none => none
      | some sites =>
        some { st with
            delLength_ := dl, delStart_ := 0, positions_ := [], sequence_ := sq2, end_ := 0, chr_ := curChr, fbgn_ := curFBgn, ffSites_ := st.ffSites_ ++ sites, log_ := lg ++ [LogEntry.candDeleted st.fbgn_ curFBgn] }

/-- Overlap resolution with a forward candidate and a complement-stored
previous record (lines 292-341); `delStart_` is set to `0` before the
branches (line 302). -/
def resolveCandFwdPrevRev (st : FFState) (cp : List Nat) (curChr curFBgn : List Char)
    (c0 : Nat) : Option FFState :=
  let oc := overlapCountRev st.positions_ c0
  let dl := delLengthFun oc
  let lg := st.log_ ++ [LogEntry.overlapDetected st.fbgn_ curFBgn]
  if dl < st.positions_.length ∧ dl < cp.length then
    let ps2 := st.positions_.drop dl
    let sq2 := st.sequence_.drop dl
    match getFFsites st.chr_ st.fbgn_ sq2 ps2 with
    | none => none
    | some sites =>
      let cp2 := cp.drop dl
      match cp2.getLast? with
      | none => none
      | some e2 =>
        some { st with
            delLength_ := dl, delStart_ := 0, sequence_ := sq2, positions_ := cp2, end_ := e2, chr_ := curChr, fbgn_ := curFBgn, ffSites_ := st.ffSites_ ++ sites, log_ := lg }
  else if st.positions_.length ≤ dl then
    if cp.length ≤ dl then
      some { st with
          delLength_ := dl, delStart_ := 0, positions_ := [], sequence_ := [], log_ := lg ++ [LogEntry.bothDeleted st.fbgn_ curFBgn] }
    else
      let cp2 := cp.drop dl
      match cp2.getLast? with
      | none => none
      | some e2 =>
        some { st with
            delLength_ := dl, delStart_ := 0, positions_ := cp2, end_ := e2, chr_ := curChr, fbgn_ := curFBgn, log_ := lg ++ [LogEntry.prevDeleted st.fbgn_ curFBgn] }
  else
    let ps2 := st.positions_.drop dl
    let sq2 := st.sequence_.drop dl
    match getFFsites st.chr_ st.fbgn_ sq2 ps2 with
    | none => none
    | some sites =>
      some { st with
          delLength_ := dl, delStart_ := 0, positions_ := [], sequence_ := sq2, end_ := 0, chr_ := curChr, fbgn_ := curFBgn, ffSites_ := st.ffSites_ ++ sites, log_ := lg ++ [LogEntry.candDeleted st.fbgn_ curFBgn] }

/-- Overlap resolution with a complemented candidate and a forward-stored
previous record (lines 355-407).  Note line 388: `delStart_` is computed
from the already-resized candidate length and can wrap in `size_t`. -/
def resolveCandRevPrevFwd (st : FFState) (cp : List Nat) (curChr curFBgn : List Char)
    (cb : Nat) : Option FFState :=
  let oc := overlapCountFwd st.positions_ cb
  let dl := delLengthFun oc
  let lg := st.log_ ++ [LogEntry.overlapDetected st.fbgn_ curFBgn]
  if dl < st.positions_.length ∧ dl < cp.length then
    let ds := st.positions_.length - dl
    let ps2 := st.positions_.take (st.positions_.length - dl)
    match resizeDown st.sequence_ dl with
    | none => none
    | some sq2 =>
      match getFFsites st.chr_ st.fbgn_ sq2 ps2 with
      | none => none
      | some sites =>
        let cp2 := cp.take (cp.length - dl)
        match cp2.get? 0 with
        | none => none
        | some e2 =>
          some { st with
              delLength_ := dl, delStart_ := ds, sequence_ := sq2, positions_ := cp2, end_ := e2, chr_ := curChr, fbgn_ := curFBgn, ffSites_ := st.ffSites_ ++ sites, log_ := lg }
  else if st.positions_.length ≤ dl then
    if cp.length ≤ dl then
      some { st with
          delLength_ := dl, delStart_ := 0, positions_ := [], sequence_ := [], log_ := lg ++ [LogEntry.bothDeleted st.fbgn_ curFBgn] }
    else
      let cp2 := cp.take (cp.length - dl)
      let ds := subSz cp2.length dl
      match cp2.get? 0 with
      | none => none
      | some e2 =>
        some { st with
            delLength_ := dl, delStart_ := ds, positions_ := cp2, end_ := e2, chr_ := curChr, fbgn_ := curFBgn, log_ := lg ++ [LogEntry.prevDeleted st.fbgn_ curFBgn] }
  else
    let ps2 := st.positions_.take (st.positions_.length - dl)
    match resizeDown st.sequence_ dl with
    | none => none
    | some sq2 =>
      match getFFsites st.chr_ st.fbgn_ sq2 ps2 with
      | none => none
      | some sites =>
        some { st with
            delLength_ := dl, delStart_ := 0, positions_ := [], sequence_ := sq2, end_ := 0, chr_ := curChr, fbgn_ := curFBgn, ffSites_ := st.ffSites_ ++ sites, log_ := lg ++ [LogEntry.candDeleted st.fbgn_ curFBgn] }

/-- Overlap resolution with a complemented candidate and a
complement-stored previous record (lines 408-458); `delStart_` is set to
`0` before the branches (line 418). -/
def resolveCandRevPrevRev (st : FFState) (cp : List Nat) (curChr curFBgn : List Char)
    (cb : Nat) : Option FFState :=
  let oc := overlapCountRev st.positions_ cb
  let dl := delLengthFun oc
  let lg := st.log_ ++ [LogEntry.overlapDetected st.fbgn_ curFBgn]
  if dl < st.positions_.length ∧ dl < cp.length then
    let ps2 := st.positions_.drop dl
    let sq2 := st.sequence_.drop dl
    match getFFsites st.chr_ st.fbgn_ sq2 ps2 with
    | none => none
    | some sites =>
      let cp2 := cp.take (cp.length - dl)
      match cp2.get? 0 with
      | none => none
      | some e2 =>
        some { st with
            delLength_ := dl, delStart_ := 0, sequence_ := sq2, positions_ := cp2, end_ := e2, chr_ := curChr, fbgn_ := curFBgn, ffSites_ := st.ffSites_ ++ sites, log_ := lg }
  else if st.positions_.length ≤ dl then
    if cp.length ≤ dl then
      some { st with
          delLength_ := dl, delStart_ := 0, positions_ := [], sequence_ := [], log_ := lg ++ [LogEntry.bothDeleted st.fbgn_ curFBgn] }
    else
      let cp2 := cp.take (cp.length - dl)
      match cp2.get? 0 with
      | none => none
      | some e2 =>
        some { st with
            delLength_ := dl, delStart_ := 0, positions_ := cp2, end_ := e2, chr_ := curChr, fbgn_ := curFBgn, log_ := lg ++ [LogEntry.prevDeleted st.fbgn_ curFBgn] }
  else
    let ps2 := st.positions_.drop dl
    let sq2 := st.sequence_.drop dl
    match getFFsites st.chr_ st.fbgn_ sq2 ps2 with
    | none => none
    | some sites =>
      some { st with
          delLength_ := dl, delStart_ := 0, positions_ := [], sequence_ := sq2, end_ := 0, chr_ := curChr, fbgn_ := curFBgn, ffSites_ := st.ffSites_ ++ sites, log_ := lg ++ [LogEntry.candDeleted st.fbgn_ curFBgn] }

/-- Header-processing step of `FFextract::getNextRecord_` (lines 218-467),
taking the already parsed candidate data (positions, chromosome, FBgn).
Vector accesses that would be undefined behaviour on an empty vector are
modelled with `List.get?` / `List.getLast?`; `none` models the program
aborting. -/
def processHeader (st : FFState) (cp : List Nat) (curChr curFBgn : List Char) :
    Option FFState :=
  if curChr ≠ st.chr_ then
    match getFFsites st.chr_ st.fbgn_ st.sequence_ st.positions_, endOf cp with
    | some sites, some e2 =>
      some { st with
          log_ := st.log_ ++ [LogEntry.switchedChrom st.chr_ curChr curFBgn], ffSites_ := st.ffSites_ ++ sites, positions_ := cp, end_ := e2, chr_ := curChr, fbgn_ := curFBgn, delLength_ := 0 }
    | _, _ => none
  else if st.positions_ = [] then
    match endOf cp with
    | none => none
    | some e2 =>
      some { st with
          log_ := st.log_ ++ [LogEntry.emptyPrev curFBgn], positions_ := cp, end_ := e2, chr_ := curChr, fbgn_ := curFBgn, delLength_ := 0 }
  else
    match cp.get? 0, cp.getLast?, st.positions_.get? 0, st.positions_.getLast? with
    | some c0, some cb, some p0, some pb =>
      if c0 < cb then
        if c0 < st.end_ then
          if p0 < pb then resolveFwdFwd st cp curChr curFBgn c0
          else resolveCandFwdPrevRev st cp curChr curFBgn c0
        else flushAdopt st cp curChr curFBgn cb
      else
        if cb < st.end_ then
          if p0 < pb then resolveCandRevPrevFwd st cp curChr curFBgn cb
          else resolveCandRevPrevRev st cp curChr curFBgn cb
        else flushAdopt st cp curChr curFBgn c0
    | _, _, _, _ => none

/-- Sequence-line handling of `getNextRecord_` (lines 469-477): when the
pending positions are empty the line is discarded; otherwise a pending
deletion `(delStart_, delLength_)` is applied to the raw line before it
becomes the current sequence. -/
def processSeqLine (st : FFState) (curLine : List Char) : Option FFState :=
  if st.positions_ = [] then some st
  else if st.delLength_ ≠ 0 then
    match eraseCpp curLine st.delStart_ st.delLength_ with
    | none => none
    | some l2 => some { st with sequence_ := l2 }
  else some { st with sequence_ := curLine }

/-- One FASTA record of the sorted stream: parsed header data plus the raw
one-line sequence. -/
structure Record where
  pos : List Nat
  chr : List Char
  fbgn : List Char
  seqLine : List Char
deriving DecidableEq

/-- One call of `FFextract::getNextRecord_` (lines 208-478) consuming the
next record: `sequence_` is cleared first (line 210), the header line is
processed, then the record's sequence line is consumed. -/
def getNextRecordStep (st : FFState) (r : Record) : Option FFState :=
  match processHeader { st with sequence_ := [] } r.pos r.chr r.fbgn with
  | none => none
  | some st2 => processSeqLine st2 r.seqLine

/-- Repeated `getNextRecord_` calls over the record stream. -/
def runRecords (st : FFState) : List Record → Option FFState
  | [] => some st
  | r :: rs =>
    match getNextRecordStep st r with
    | none => none
    | some st2 => runRecords st2 rs

/-- Initial object state from the constructor (ffExtract.cpp line 54). -/
def initState : FFState :=
  { sequence_ := [], positions_ := [], end_ := 0, chr_ := [], fbgn_ := [],
    delStart_ := 0, delLength_ := 0, ffSites_ := [], log_ := [] }

/-- Modelled from the spec: the public driver `FFextract::extractFFsites`
is declared in ffExtract.hpp but its implementation is absent from the
sources; spec section 4.2 states that the cursor consumes records one at a
time via the record-reading step and, at end of input, flushes whatever
record is pending.  The flush classifies the pending record exactly as the
in-stream flushes do (`getFFsites_`). -/
def finalFlush (st : FFState) : Option FFState :=
  match getFFsites st.chr_ st.fbgn_ st.sequence_ st.positions_ with
  | none => none
  | some sites => some { st with ffSites_ := st.ffSites_ ++ sites }

/-- Modelled from the spec: full pipeline output; see `finalFlush` for the
part not present in the sources. -/
def extractFFsites (recs : List Record) : Option (List Site) :=
  match runRecords initState recs with
  | none => none
  | some st =>
    match finalFlush st with
    | none => none
    | some st2 => some st2.ffSites_

/-- Which top-level branch the header-processing step takes (conditions of
lines 218, 227, 236-237 and 352-353). -/
inductive Disposition where
  | newChrom
  | emptyPrev
  | overlapRes
  | flushAdoptB
deriving DecidableEq

/-- Branch selection of the header-processing step, transcribed from the
conditions at lines 218, 227, 236-237 and 352-353. -/
def dispositionOf (st : FFState) (cp : List Nat) (curChr : List Char) : Disposition :=
  if curChr ≠ st.chr_ then Disposition.newChrom
  else if st.positions_ = [] then Disposition.emptyPrev
  else if cp.headD 0 < cp.getLastD 0 then
    if cp.headD 0 < st.end_ then Disposition.overlapRes else Disposition.flushAdoptB
  else
    if cp.getLastD 0 < st.end_ then Disposition.overlapRes else Disposition.flushAdoptB

/-- Candidate start for the overlap test as the spec defines it: the
genomically smaller of the first and last coordinate (`curPos[0]` for a
forward candidate at line 237, `curPos.back()` for a complemented one at
line 353). -/
def candStartOf (cp : List Nat) : Nat :=
  if cp.headD 0 < cp.getLastD 0 then cp.headD 0 else cp.getLastD 0

/-- C `isspace` characters skipped by `strtoul`. -/
def isSpaceC (c : Char) : Bool :=
  c == ' ' || c == '\t' || c == '\n' || c == '\x0b' || c == '\x0c' || c == '\r'

/-- Hexadecimal digit value, `none` for non-digits. -/
def hexVal (c : Char) : Option Nat :=
  if '0' ≤ c ∧ c ≤ '9' then some (c.toNat - 48)
  else if 'a' ≤ c ∧ c ≤ 'f' then some (c.toNat - 87)
  else if 'A' ≤ c ∧ c ≤ 'F' then some (c.toNat - 55)
  else none

/-- Longest valid digit prefix in the given base, folded into a value. -/
def digitsAcc (base : Nat) : List Char → Nat → Nat
  | [], acc => acc
  | c :: rest, acc =>
    match hexVal c with
    | some v => if v < base then digitsAcc base rest (acc * base + v) else acc
    | none => acc

/-- Value computed by `strtoul(s, NULL, 0)` as used at ffExtract.cpp lines
203 and 205: skip leading white space, read an optional sign, auto-detect
the base (`0x` means 16, a leading `0` means 8, otherwise 10), parse the
longest valid digit prefix (`0` when there is none), saturate at
`ULONG_MAX`, and negate modulo `2^64` for a minus sign. -/
def strtoulVal (s : List Char) : Nat :=
  let s1 := s.dropWhile isSpaceC
  let signRest :=
    match s1 with
    | '-' :: r => (true, r)
    | '+' :: r => (false, r)
    | _ => (false, s1)
  let s2 := signRest.2
  let v :=
    match s2 with
    | '0' :: 'x' :: r =>
      match r with
      | c :: _ => match hexVal c with
        | some _ => digitsAcc 16 r 0
        | none => 0
      | [] => 0
    | '0' :: 'X' :: r =>
      match r with
      | c :: _ => match hexVal c with
        | some _ => digitsAcc 16 r 0
        | none => 0
      | [] => 0
    | '0' :: r => digitsAcc 8 r 0
    | r => digitsAcc 10 r 0
  let v2 := min v (szMod - 1)
  if signRest.1 then (szMod - v2 % szMod) % szMod else v2

/-- `FFextract::getNumbers_` (ffExtract.cpp lines 201-206):
`start = strtoul(range.substr(0, find_first_of('.')))` and
`end = strtoul(range.substr(find_last_of('.') + 1))`.  `substr(0, pos)`
with `pos = npos` clamps, which equals taking the longest dot-free leading
run; `find_last_of('.') + 1` wraps to `0` when there is no dot, making the
second substring the whole range. -/
def getNumbers (r : List Char) : Nat × Nat :=
  (strtoulVal (r.takeWhile (fun c => !(c == '.'))),
   strtoulVal ((r.reverse.takeWhile (fun c => !(c == '.'))).reverse))

/-- One `std::getline(stream, field, delim)` loop (used with a space at
line 88 and a comma at line 151): splits on every delimiter, produces
empty fields between adjacent delimiters, and a trailing delimiter does
not produce a final empty field. -/
def splitGo (d : Char) (acc : List Char) : List Char → List (List Char)
  | [] => [acc.reverse]
  | c :: rest =>
    if c = d then
      acc.reverse :: (match rest with | [] => [] | _ :: _ => splitGo d [] rest)
    else splitGo d (c :: acc) rest

/-- Full split of a line into delimiter-separated fields; an empty line
yields no fields at all (the first `getline` fails immediately). -/
def splitCpp (d : Char) : List Char → List (List Char)
  | [] => []
  | c :: rest => splitGo d [] (c :: rest)

/-- `field.compare(0, n, lit) == 0`: the first `n` characters of the field
(clamped at its length) equal the literal. -/
def startsWithL (l p : List Char) : Bool :=
  match p, l with
  | [], _ => true
  | _ :: _, [] => false
  | y :: ys, x :: xs => x == y && startsWithL xs ys

/-- Literal scaffold tag stripped at ffExtract.cpp line 92. -/
def scfTag : List Char := "Scf_".toList

/-- Literal matched by `field.compare(0, 3, "loc")` at line 89. -/
def locTag : List Char := "loc".toList

/-- Literal matched by `field.compare(0, 7, "parent=")` at line 194. -/
def parentTag : List Char := "parent=".toList

/-- Ascending coordinate enumeration of lines 139-143: push `start` while
`start != end`, then push `end`. -/
def rangeAsc (s e : Nat) : List Nat := (List.range (e + 1 - s)).map (fun i => s + i)

/-- Descending coordinate enumeration of lines 133-137. -/
def rangeDesc (s e : Nat) : List Nat := (rangeAsc s e).reverse

/-- Failure modes of `FFextract::parseHeader_`: the thrown header-format
errors (lines 102-108, 117-121, 126-130, 159-163, 176-180, 189-192), the
`std::out_of_range` throw of `substr(11, 7)` on a short parent field, and
undefined behaviour from `erase(end() - 1)` on an empty string (lines 110,
114, 147). -/
inductive HdrErr where
  | unknownChrom
  | shortRange
  | startNotBeforeEnd
  | unknownPosList
  | outOfRange
  | ub
deriving DecidableEq

/-- `field.erase(field.end() - 1)`: undefined behaviour on an empty
string, otherwise removal of the final character. -/
def dropLastE (l : List Char) : Except HdrErr (List Char) :=
  match l with
  | [] => Except.error HdrErr.ub
  | _ :: _ => Except.ok l.dropLast

/-- Range processing of the join loops (lines 154-188), over the range
strings already in iteration order: parse the numbers of each range, fail
when start >= end, and append the enumerated coordinates. -/
def joinGo (comp : Bool) : List (List Char) → Except HdrErr (List Nat)
  | [] => Except.ok []
  | r :: rest =>
    let se := getNumbers r
    if se.2 ≤ se.1 then Except.error HdrErr.startNotBeforeEnd
    else
      match joinGo comp rest with
      | Except.error e => Except.error e
      | Except.ok tail =>
        Except.ok ((if comp then rangeDesc se.1 se.2 else rangeAsc se.1 se.2) ++ tail)

/-- Continuation of the location-field processing after the chromosome
token (ffExtract.cpp lines 110-193): strip the field's final character,
unwrap an optional `complement(...)`, then parse either a single range or
a join list. -/
def parseLocTail (chr : List Char) (f3 : List Char) : Except HdrErr (List Nat × List Char) :=
  match dropLastE f3 with
  | Except.error e => Except.error e
  | Except.ok f4 =>
    let comp := f4.getD 0 nullChar == 'c'
    match (if comp then dropLastE (f4.drop 11) else Except.ok f4) with
    | Except.error e => Except.error e
    | Except.ok f5 =>
      let c5 := f5.getD 0 nullChar
      if c5.isDigit then
        if f5.length ≤ 2 then Except.error HdrErr.shortRange
        else
          let se := getNumbers f5
          if se.2 ≤ se.1 then Except.error HdrErr.startNotBeforeEnd
          else Except.ok ((if comp then rangeDesc se.1 se.2 else rangeAsc se.1 se.2), chr)
      else if c5 = 'j' then
        match dropLastE (f5.drop 5) with
        | Except.error e => Except.error e
        | Except.ok f6 =>
          let ranges := splitCpp ',' f6
          match joinGo comp (if comp then ranges.reverse else ranges) with
          | Except.error e => Except.error e
          | Except.ok ps => Except.ok (ps, chr)
      else Except.error HdrErr.unknownPosList

/-- Location-field processing of `FFextract::parseHeader_` (lines 89-109):
strip `loc=` and an optional `Scf_`, read the chromosome token from the
leading character (one character for `X`/`4` followed by a colon, the
first two characters for a leading `3` or `2`), and fail with the
unknown-chromosome error otherwise. -/
def parseLocField (field0 : List Char) : Except HdrErr (List Nat × List Char) :=
  let f1 := field0.drop 4
  let f2 := if startsWithL f1 scfTag then f1.drop 4 else f1
  let c0 := f2.getD 0 nullChar
  if c0 = 'X' ∨ c0 = '4' then parseLocTail [c0] (f2.drop 2)
  else if c0 = '3' ∨ c0 = '2' then parseLocTail (f2.take 2) (f2.drop 3)
  else Except.error HdrErr.unknownChrom

/-- Field loop of `FFextract::parseHeader_` (lines 88-198): walk the
space-separated fields; every field starting with `loc` appends
coordinates and overwrites the chromosome; the first field starting with
`parent=` sets the FBgn via `substr(11, 7)` and ends the scan. -/
def parseFields : List (List Char) → List Nat → List Char →
    Except HdrErr (List Nat × List Char × List Char)
  | [], pos, chr => Except.ok (pos, chr, [])
  | f :: rest, pos, chr =>
    if startsWithL f locTag then
      match parseLocField f with
      | Except.error e => Except.error e
      | Except.ok pc => parseFields rest (pos ++ pc.1) pc.2
    else if startsWithL f parentTag then
      if f.length < 11 then Except.error HdrErr.outOfRange
      else Except.ok (pos, chr, (f.drop 11).take 7)
    else parseFields rest pos chr

/-- `FFextract::parseHeader_` (ffExtract.cpp lines 84-199) on one header
line: split on single spaces and process the fields.  The out-parameters
(positions, chromosome, FBgn) start from freshly default-constructed
values, matching `getNextRecord_` lines 214-216. -/
def parseHeader (header : List Char) : Except HdrErr (List Nat × List Char × List Char) :=
  parseFields (splitCpp ' ' header) [] []

/-- Recognised chromosome arm names, from the class documentation in
ffExtract.hpp: the chromosome names are the Drosophila arms 2L, 2R, 3L,
3R, 4 and X. -/
def armNames : List (List Char) :=
  [r"2L".toList, r"2R".toList, r"3L".toList, r"3R".toList, r"4".toList, r"X".toList]

/-- Canonical position-range body `A..B;` of a single-exon location
field. -/
def canonBody (a b : List Char) : List Char := a ++ '.' :: '.' :: (b ++ [';'])

/-- Canonical single-exon location field following the header grammar of
spec section 4.1: `loc=[Scf_]CHR:A..B;`, with a one-character chromosome
token for the `X`/`4` family and a two-character token otherwise. -/
def mkLoc (scf : Bool) (c d : Char) (a b : List Char) : List Char :=
  locTag ++ '=' :: ((if scf then scfTag else []) ++
    ((if c = 'X' ∨ c = '4' then [c] else [c, d]) ++ ':' :: canonBody a b))

/-- Name token of the canonical header. -/
def hdrName : List Char := ">h".toList

/-- Parent field of the canonical header. -/
def parentField : List Char := "parent=FBgn0000008;".toList

/-- Canonical header built around `mkLoc`: name token, location field and
parent field separated by single spaces. -/
def mkHeader (scf : Bool) (c d : Char) (a b : List Char) : List Char :=
  hdrName ++ ' ' :: (mkLoc scf c d a b ++ ' ' :: parentField)

/-- Decimal digit characters. -/
def digitChars : List Char := "0123456789".toList

/-- Pending forward record at 100-102 used to exercise the overlap
boundary test. -/
def c3st : FFState :=
  { sequence_ := "AAA".toList, positions_ := [100, 101, 102], end_ := 102,
    chr_ := "2L".toList, fbgn_ := "0000001".toList, delStart_ := 0, delLength_ := 0,
    ffSites_ := [], log_ := [] }

/-- Forward candidate whose start coordinate equals the pending record's
end coordinate. -/
def c3cand : List Nat := [102, 103, 104]

/-- Pending complement-stored record at 105 down to 100, used to exercise
the length invariant across an overlap truncation. -/
def c4wst : FFState :=
  { sequence_ := "TTTTTT".toList, positions_ := [105, 104, 103, 102, 101, 100],
    end_ := 105, chr_ := "2L".toList, fbgn_ := "0000001".toList, delStart_ := 0,
    delLength_ := 0, ffSites_ := [], log_ := [] }

/-- Forward candidate record overlapping the pending record's low end by
three coordinates, with a well-formed eight-base sequence line. -/
def c4wrec : Record :=
  { pos := [103, 104, 105, 106, 107, 108, 109, 110], chr := "2L".toList,
    fbgn := "0000002".toList, seqLine := "ACGTACGT".toList }

/-- State after the overlap-resolving record step on `c4wst` and
`c4wrec`: the candidate lost its first three coordinates and its line
lost its first three characters. -/
def c4wres : FFState :=
  { sequence_ := "TACGT".toList, positions_ := [106, 107, 108, 109, 110],
    end_ := 110, chr_ := "2L".toList, fbgn_ := "0000002".toList, delStart_ := 0,
    delLength_ := 3, ffSites_ := [],
    log_ := [LogEntry.overlapDetected ("0000001".toList) ("0000002".toList)] }

/-- First record of the C9 stream: a forward CDS whose first codon `ACA`
is four-fold degenerate. -/
def c9rec1 : Record :=
  { pos := [100, 101, 102, 103, 104, 105], chr := "2L".toList, fbgn := "0000001".toList,
    seqLine := "ACAAAA".toList }

/-- Second record of the C9 stream: same chromosome, no overlap with the
first, no four-fold codon. -/
def c9rec2 : Record :=
  { pos := [200, 201, 202, 203, 204, 205], chr := "2L".toList, fbgn := "0000002".toList,
    seqLine := "AAAAAA".toList }

/-- State with an empty pending slot (as after a total-containment drop),
with stale `end_`, `delStart_` and `delLength_` values on purpose. -/
def c10st : FFState :=
  { sequence_ := [], positions_ := [], end_ := 500, chr_ := "3R".toList,
    fbgn_ := "0000003".toList, delStart_ := 4, delLength_ := 7, ffSites_ := [], log_ := [] }

/-- Candidate adopted into the empty slot; its span lies below the stale
`end_`, so an overlap check against the dropped region would fire. -/
def c10cand : List Nat := [100, 101, 102]

/-- Header whose chromosome token `2Q` is not one of the recognised arm
names. -/
def c8hdr1 : List Char := ">h loc=2Q:12..15; parent=FBgn0000008;".toList

/-- Header with a non-numeric start field inside a join range. -/
def c8hdr2 : List Char := ">h loc=X:join(5..8,x..7); parent=FBgn0000008;".toList

/-- Chromosome token of the C2 record. -/
def c2chr : List Char := "2L".toList

/-- FBgn token of the C2 record. -/
def c2fb : List Char := "0000009".toList

/-- Two-codon sequence whose first codon `CTG` is four-fold degenerate. -/
def c2seqA : List Char := "CTGAAA".toList

/-- Single-codon four-fold sequence. -/
def c2seqB : List Char := "CTG".toList

/-- Sequence of one complete codon plus a one-base leftover `C`. -/
def c6seq : List Char := "AAAC".toList

/-- The same sequence with the leftover removed. -/
def c6seqT : List Char := "AAA".toList

/-- Upper-case test sequence for case sensitivity. -/
def c7sequ : List Char := "ACAAAA".toList

/-- The same sequence in lower case. -/
def c7seql : List Char := "acaaaa".toList

/-- FBgn token used with the C3 fixtures. -/
def c3fb : List Char := "0000002".toList

/-- Chromosome token used with the C6 fixtures. -/
def c6chr : List Char := "3L".toList

/-- FBgn token used with the C6 fixtures. -/
def c6fb : List Char := "0000004".toList

/-- Chromosome token used with the C7 fixtures. -/
def c7chr : List Char := "2R".toList

/-- FBgn token used with the C7 fixtures. -/
def c7fb : List Char := "0000005".toList

/-- FBgn token used with the C10 fixtures. -/
def c10fb : List Char := "0000006".toList

/-- Shape of the state left by the header-processing step when it runs
with the sequence already cleared (getNextRecord_ line 210): either the
pending slot is empty with an empty sequence, or the candidate was
adopted whole with no pending deletion, or it was truncated by
`delLength_` coordinates with the stored erase offset either consistent
with the candidate's length or past the end of any line of that length. -/
def headerShape (cp : List Nat) (st2 : FFState) : Prop :=
  st2.sequence_ = [] ∧
  (st2.positions_ = [] ∨
   (st2.delLength_ = 0 ∧ st2.positions_ = cp) ∨
   (st2.delLength_ ≠ 0 ∧ st2.positions_.length + st2.delLength_ = cp.length ∧
    (st2.delStart_ + st2.delLength_ ≤ cp.length ∨ cp.length < st2.delStart_)))

/-- C1: the spec requires the truncation length to be the smallest multiple
of 3 that is at least the overlap count, with `delLength % 3 == 0` and
`delLength >= overlapCount`.  The source formula
`delLength_ + (delLength_ % 3)` (ffExtract.cpp lines 248 and 301) violates
the multiple-of-3 part: a forward record at 100-105 overlapped by a
candidate starting at 104 yields an overlap count of 2 and a truncation
length of 4, which is not a multiple of 3.  The lower-bound half of the
requirement does hold for every count. -/
theorem C1_delLength_rounding_defect :
    overlapCountFwd [100, 101, 102, 103, 104, 105] 104 = 2 ∧
    delLengthFun 2 = 4 ∧ ¬ (delLengthFun 2 % 3 = 0) ∧
    (∀ oc : Nat, oc ≤ delLengthFun oc) := by
  refine ⟨by decide, by decide, by decide, fun oc => ?_⟩
  simp only [delLengthFun]
  omega

/-- C2: the classifier is claimed to emit the coordinate of the qualifying
codon's third base, the coordinate at index `i + 2`.  The source reads
`positions_[i + 3]` (ffExtract.cpp lines 489, 494, 499): on the two-codon
record `CTGAAA` with coordinates 100-105 it emits 103, the coordinate of
the base after the codon, instead of 102; and on a record whose final
codon qualifies (`CTG` with coordinates 100-102) the access
`positions_[3]` is out of bounds. -/
theorem C2_third_base_coordinate_bug :
    getFFsites c2chr c2fb c2seqA [100, 101, 102, 103, 104, 105] =
      some [⟨c2chr, c2fb, 103⟩] ∧
    List.get? [100, 101, 102, 103, 104, 105] 2 = some 102 ∧
    getFFsites c2chr c2fb c2seqB [100, 101, 102] = none := by
  decide

/-- C5: codon classification depends only on the first two bases exactly as
claimed: never four-fold for middle `A`, always for middle `C`, and for
middle `T` or `G` exactly when the first base is `C` or `G`; the eight
listed example codons classify accordingly. -/
theorem C5_codon_classification_table :
    (∀ b0 : Char, isFourFold b0 'A' = false) ∧
    (∀ b0 : Char, isFourFold b0 'C' = true) ∧
    (∀ b0 : Char, isFourFold b0 'T' = (b0 == 'C' || b0 == 'G')) ∧
    (∀ b0 : Char, isFourFold b0 'G' = (b0 == 'C' || b0 == 'G')) ∧
    isFourFold 'C' 'T' = true ∧ isFourFold 'A' 'T' = false ∧
    isFourFold 'C' 'C' = true ∧ isFourFold 'T' 'C' = true ∧
    isFourFold 'C' 'G' = true ∧ isFourFold 'A' 'G' = false ∧
    isFourFold 'T' 'G' = false ∧ isFourFold 'G' 'G' = true := by
  refine ⟨fun b0 => rfl, fun b0 => rfl, fun b0 => rfl, fun b0 => rfl,
    ?_, ?_, ?_, ?_, ?_, ?_, ?_, ?_⟩ <;> decide

/-- C6: trailing leftover bases are claimed to be ignored with no emission
and no out-of-bounds access.  On the record `AAAC` with coordinates
100-103 the source classifies the one-base leftover `C` through the final
else branch (`codon[1]` reads the null character) and reads
`positions_[6]`, out of bounds; removing the leftover yields the empty
site list the claim expects. -/
theorem C6_leftover_bases_not_ignored :
    getFFsites c6chr c6fb c6seq [100, 101, 102, 103] = none ∧
    getFFsites c6chr c6fb c6seqT [100, 101, 102] = some [] := by
  decide

/-- C7 counterexample: classification is not case-invariant; the record
`ACAAAA` emits a site while its lower-case version emits none, because the
character comparisons use upper-case literals with no normalisation. -/
theorem C7_case_invariance_counterexample :
    ¬ (getFFsites c7chr c7fb c7sequ [1, 2, 3, 4, 5, 6] =
       getFFsites c7chr c7fb c7seql [1, 2, 3, 4, 5, 6]) := by
  decide

/-- C7 amended: codon classification is case sensitive; letters are
compared against upper-case literals without normalisation, so
lower-casing a sequence can change the emitted site list (`ACAAAA` emits
the site at 4, its lower-case image emits nothing). -/
theorem C7_case_sensitive_classification :
    getFFsites c7chr c7fb c7sequ [1, 2, 3, 4, 5, 6] = some [⟨c7chr, c7fb, 4⟩] ∧
    getFFsites c7chr c7fb (c7sequ.map Char.toLower) [1, 2, 3, 4, 5, 6] = some [] ∧
    c7sequ.map Char.toLower = c7seql := by
  decide

/-- C3 counterexample: with the pending record ending at 102 and a forward
candidate starting at 102, the claimed equivalence "overlap resolution is
entered exactly when candidate.start <= current.end" fails: the start
equals the end, yet the step takes the flush-and-adopt branch because the
source comparison (ffExtract.cpp line 237) is strict. -/
theorem C3_boundary_counterexample :
    ¬ (dispositionOf c3st c3cand c3st.chr_ = Disposition.overlapRes ↔
       candStartOf c3cand ≤ c3st.end_) := by
  decide

/-- C9: the resolver is claimed to be the identity on records without an
overlapping neighbour.  Classifying the first record of the stream
directly yields the site at 103, but running the two-record stream through
the record-reading step yields no site at all: `getNextRecord_` clears
`sequence_` (ffExtract.cpp line 210) before the flush at line 344 runs, so
every record flushed while a successor is being adopted is classified with
an empty sequence. -/
theorem C9_resolver_loses_record :
    extractFFsites [c9rec1, c9rec2] = some [] ∧
    getFFsites c9rec1.chr c9rec1.fbgn c9rec1.seqLine c9rec1.pos =
      some [⟨c9rec1.chr, c9rec1.fbgn, 103⟩] := by
  decide

/-- Helper: the optional last element of a nonempty list is the defaulted
last element. -/
theorem getLast?_cons_eq_getLastD (x : Nat) (xs : List Nat) :
    (x :: xs).getLast? = some ((x :: xs).getLastD 0) := by
  induction xs generalizing x with
  | nil => rfl
  | cons y ys ih =>
    rw [List.getLast?_cons_cons, ih y]
    congr 1

/-- C10: whenever the pending slot is empty, a same-chromosome header is
adopted unconditionally (ffExtract.cpp lines 227-235): for every state
with empty `positions_` — in particular with arbitrary stale `end_`,
`delStart_` and `delLength_`, so no overlap check against the previously
dropped region can take place — the step writes the empty-previous
diagnostic, installs the candidate with `end_` recomputed and
`delLength_` reset, and leaves `ffSites_` unchanged (no sites emitted). -/
theorem C10_empty_slot_unconditional_adoption (st : FFState) (cp : List Nat)
    (curFBgn : List Char) (hemp : st.positions_ = []) (hcp : cp ≠ []) :
    processHeader st cp st.chr_ curFBgn = some { st with
      log_ := st.log_ ++ [LogEntry.emptyPrev curFBgn], positions_ := cp,
      end_ := (if cp.headD 0 < cp.getLastD 0 then cp.getLastD 0 else cp.headD 0),
      chr_ := st.chr_, fbgn_ := curFBgn, delLength_ := 0 } := by
  cases cp with
  | nil => exact absurd rfl hcp
  | cons x xs =>
    simp [processHeader, hemp, endOf]

/-- C10 witness: the empty-slot state `c10st` carries a stale `end_` of 500
above the whole candidate span 100-102, and the adoption still happens
with no site emitted. -/
theorem C10_empty_slot_unconditional_adoption_witness :
    c10st.positions_ = [] ∧
    processHeader c10st c10cand c10st.chr_ c10fb = some { c10st with
      log_ := c10st.log_ ++ [LogEntry.emptyPrev c10fb], positions_ := c10cand,
      end_ := (if c10cand.headD 0 < c10cand.getLastD 0 then c10cand.getLastD 0
               else c10cand.headD 0),
      chr_ := c10st.chr_, fbgn_ := c10fb, delLength_ := 0 } :=
  ⟨rfl, C10_empty_slot_unconditional_adoption c10st c10cand c10fb rfl (by decide)⟩

/-- C3 amended: for consecutive same-chromosome records, overlap resolution
is entered exactly when `candidate.start < current.end` (strictly; lines
237 and 353), and when `candidate.start >= current.end` the current record
is flushed unchanged and the candidate adopted; a candidate whose start
equals the current record's end is treated as non-overlapping. -/
theorem C3_overlap_strict_boundary (st : FFState) (cp : List Nat) (curFBgn : List Char)
    (sites : List Site) (hne : st.positions_ ≠ []) (hcp : cp ≠ [])
    (hflush : getFFsites st.chr_ st.fbgn_ st.sequence_ st.positions_ = some sites) :
    (dispositionOf st cp st.chr_ = Disposition.overlapRes ↔ candStartOf cp < st.end_) ∧
    (st.end_ ≤ candStartOf cp →
      processHeader st cp st.chr_ curFBgn = some { st with
        ffSites_ := st.ffSites_ ++ sites, positions_ := cp,
        end_ := (if cp.headD 0 < cp.getLastD 0 then cp.getLastD 0 else cp.headD 0),
        chr_ := st.chr_, fbgn_ := curFBgn, delLength_ := 0 }) := by
  constructor
  · unfold dispositionOf candStartOf
    rw [if_neg (by simp), if_neg hne]
    by_cases h : cp.headD 0 < cp.getLastD 0
    · rw [if_pos h, if_pos h]
      by_cases h2 : cp.headD 0 < st.end_ <;> simp [h2]
    · rw [if_neg h, if_neg h]
      by_cases h2 : cp.getLastD 0 < st.end_ <;> simp [h2]
  · intro hle
    obtain ⟨x, xs, rfl⟩ : ∃ x xs, cp = x :: xs := by
      cases cp with
      | nil => exact absurd rfl hcp
      | cons x xs => exact ⟨x, xs, rfl⟩
    obtain ⟨p, ps, hps⟩ : ∃ p ps, st.positions_ = p :: ps := by
      cases h : st.positions_ with
      | nil => exact absurd h hne
      | cons p ps => exact ⟨p, ps, rfl⟩
    unfold processHeader
    rw [if_neg (by simp)]
    rw [if_neg hne]
    rw [hps, getLast?_cons_eq_getLastD, getLast?_cons_eq_getLastD]
    simp only [List.get?]
    unfold candStartOf at hle
    by_cases h : (x :: xs).headD 0 < (x :: xs).getLastD 0
    · rw [if_pos h] at hle ⊢
      simp only [List.headD] at h hle ⊢
      rw [if_pos h]
      rw [if_neg (by omega)]
      unfold flushAdopt
      rw [hflush]
    · rw [if_neg h] at hle ⊢
      simp only [List.headD] at h hle ⊢
      rw [if_neg h]
      rw [if_neg (by omega)]
      unfold flushAdopt
      rw [hflush]

/-- C3 amended witness: the pending record at 100-102 (which classifies to
the empty site list) against the candidate 102-104 whose start equals the
pending end: the step is not the overlap branch and the record is flushed
unchanged. -/
theorem C3_overlap_strict_boundary_witness :
    getFFsites c3st.chr_ c3st.fbgn_ c3st.sequence_ c3st.positions_ = some [] ∧
    ((dispositionOf c3st c3cand c3st.chr_ = Disposition.overlapRes ↔
        candStartOf c3cand < c3st.end_) ∧
     (c3st.end_ ≤ candStartOf c3cand →
       processHeader c3st c3cand c3st.chr_ c3fb = some { c3st with
         ffSites_ := c3st.ffSites_ ++ [], positions_ := c3cand,
         end_ := (if c3cand.headD 0 < c3cand.getLastD 0 then c3cand.getLastD 0
                  else c3cand.headD 0),
         chr_ := c3st.chr_, fbgn_ := c3fb, delLength_ := 0 })) :=
  ⟨by decide,
   C3_overlap_strict_boundary c3st c3cand c3fb [] (by decide) (by decide) (by decide)⟩


/-- C8 counterexample: the claim says parsing fails when the chromosome
token is not a recognised arm name or a numeric field is non-numeric, but
the header with token 2Q (not an arm name) parses successfully with
chromosome label 2Q, and the join range x..7 parses successfully as the
coordinates 0..7 because strtoul reads the non-numeric field as 0. -/
theorem C8_parse_counterexample :
    parseHeader c8hdr1 = Except.ok ([12, 13, 14, 15], r"2Q".toList, r"0000008".toList) ∧
    armNames.contains (r"2Q".toList) = false ∧
    parseHeader c8hdr2 =
      Except.ok ([5, 6, 7, 8, 0, 1, 2, 3, 4, 5, 6, 7], r"X".toList, r"0000008".toList) :=
  ⟨by rfl, by decide, by rfl⟩

/-- Helper: takeWhile over a satisfying prefix followed by a failing head. -/
theorem takeWhile_all_append (p : Char → Bool) (xs : List Char) (y : Char) (ys : List Char)
    (hx : ∀ x ∈ xs, p x = true) (hy : p y = false) :
    (xs ++ y :: ys).takeWhile p = xs := by
  induction xs with
  | nil => simp [List.takeWhile_cons, hy]
  | cons a as ih =>
    have ha : p a = true := hx a (List.mem_cons_self a as)
    rw [List.cons_append, List.takeWhile_cons, ha]
    simp only [ite_true]
    rw [ih (fun x hx' => hx x (List.mem_cons_of_mem a hx'))]

/-- Helper: digit characters are not spaces, dots or letters. -/
theorem digit_char_facts (ch : Char) (h : ch ∈ digitChars) :
    (ch == ' ') = false ∧ (ch == '.') = false ∧ (ch == 'c') = false ∧
    ch.isDigit = true := by
  simp only [digitChars] at h
  fin_cases h <;> decide

/-- Helper: the getline split consumes a delimiter-free suffix whole. -/
theorem splitGo_all_ne (d : Char) (acc xs : List Char)
    (h : ∀ ch ∈ xs, (ch == d) = false) :
    splitGo d acc xs = [acc.reverse ++ xs] := by
  induction xs generalizing acc with
  | nil => simp [splitGo]
  | cons a as ih =>
    have ha : ¬ a = d := by
      have := h a (List.mem_cons_self a as)
      simpa using this
    simp only [splitGo, if_neg ha]
    rw [ih (a :: acc) (fun ch hch => h ch (List.mem_cons_of_mem a hch))]
    simp

/-- Helper: the getline split emits one field at each delimiter. -/
theorem splitGo_delim (d : Char) (acc xs ys : List Char)
    (h : ∀ ch ∈ xs, (ch == d) = false) (hys : ys ≠ []) :
    splitGo d acc (xs ++ d :: ys) = (acc.reverse ++ xs) :: splitGo d [] ys := by
  induction xs generalizing acc with
  | nil =>
    cases ys with
    | nil => exact absurd rfl hys
    | cons y ys' => simp [splitGo]
  | cons a as ih =>
    have ha : ¬ a = d := by
      have := h a (List.mem_cons_self a as)
      simpa using this
    simp only [List.cons_append, splitGo, if_neg ha]
    have := ih (a :: acc) (fun ch hch => h ch (List.mem_cons_of_mem a hch))
    simpa using this

/-- Helper: a literal prefix is matched by the compare-based check. -/
theorem startsWithL_self_append (p r : List Char) : startsWithL (p ++ r) p = true := by
  induction p with
  | nil => simp [startsWithL]
  | cons x xs ih => simp [startsWithL, ih]

/-- Helper: the canonical location field contains no space. -/
theorem mkLoc_no_space (scf : Bool) (c d : Char) (a b : List Char)
    (hc : c ≠ ' ') (hd : d ≠ ' ')
    (ha : ∀ ch ∈ a, ch ∈ digitChars) (hb : ∀ ch ∈ b, ch ∈ digitChars) :
    ∀ ch ∈ mkLoc scf c d a b, (ch == ' ') = false := by
  unfold mkLoc canonBody
  refine List.forall_mem_append.mpr ⟨by decide, ?_⟩
  refine List.forall_mem_cons.mpr ⟨by decide, ?_⟩
  refine List.forall_mem_append.mpr ⟨?_, ?_⟩
  · cases scf
    · simp
    · simp only [if_true]
      decide
  refine List.forall_mem_append.mpr ⟨?_, ?_⟩
  · split
    · exact List.forall_mem_singleton.mpr (beq_eq_false_iff_ne.mpr hc)
    · exact List.forall_mem_cons.mpr
        ⟨beq_eq_false_iff_ne.mpr hc, List.forall_mem_singleton.mpr (beq_eq_false_iff_ne.mpr hd)⟩
  refine List.forall_mem_cons.mpr ⟨by decide, ?_⟩
  refine List.forall_mem_append.mpr ⟨?_, ?_⟩
  · exact fun ch hch => (digit_char_facts ch (ha ch hch)).1
  refine List.forall_mem_cons.mpr ⟨by decide, ?_⟩
  refine List.forall_mem_cons.mpr ⟨by decide, ?_⟩
  refine List.forall_mem_append.mpr ⟨?_, ?_⟩
  · exact fun ch hch => (digit_char_facts ch (hb ch hch)).1
  · decide

/-- Helper: dropping the final character of a concat. -/
theorem dropLastE_concat (l : List Char) (ch : Char) : dropLastE (l ++ [ch]) = Except.ok l := by
  cases l with
  | nil => rfl
  | cons z zs =>
    show Except.ok (((z :: zs) ++ [ch]).dropLast) = Except.ok (z :: zs)
    rw [List.dropLast_concat]

/-- Helper: characterisation of the location-tail parse on a canonical
single-exon body. -/
theorem parseLocTail_canonical (chr : List Char) (a b : List Char)
    (ha0 : a ≠ []) (hb0 : b ≠ [])
    (ha : ∀ ch ∈ a, ch ∈ digitChars) (hb : ∀ ch ∈ b, ch ∈ digitChars) :
    parseLocTail chr (canonBody a b) =
      (if strtoulVal b ≤ strtoulVal a then Except.error HdrErr.startNotBeforeEnd
       else Except.ok (rangeAsc (strtoulVal a) (strtoulVal b), chr)) := by
  unfold canonBody
  obtain ⟨x, xs, rfl⟩ : ∃ x xs, a = x :: xs := by
    cases a with
    | nil => exact absurd rfl ha0
    | cons x xs => exact ⟨x, xs, rfl⟩
  have hx := digit_char_facts x (ha x (List.mem_cons_self x xs))
  have hbody : (x :: xs) ++ '.' :: '.' :: (b ++ [';']) =
      ((x :: xs) ++ '.' :: '.' :: b) ++ [';'] := by
    simp
  have hnum : getNumbers ((x :: xs) ++ '.' :: '.' :: b) =
      (strtoulVal (x :: xs), strtoulVal b) := by
    unfold getNumbers
    have h1 : ((x :: xs) ++ '.' :: '.' :: b).takeWhile (fun ch => !(ch == '.')) = x :: xs := by
      refine takeWhile_all_append _ (x :: xs) '.' ('.' :: b) ?_ (by decide)
      intro ch hch
      rw [(digit_char_facts ch (ha ch hch)).2.1]
      rfl
    have h2 : ((x :: xs) ++ '.' :: '.' :: b).reverse =
        b.reverse ++ '.' :: '.' :: (x :: xs).reverse := by
      simp
    have h3 : (b.reverse ++ '.' :: '.' :: (x :: xs).reverse).takeWhile
        (fun ch => !(ch == '.')) = b.reverse := by
      refine takeWhile_all_append _ b.reverse '.' ('.' :: (x :: xs).reverse) ?_ (by decide)
      intro ch hch
      rw [(digit_char_facts ch (hb ch (List.mem_reverse.mp hch))).2.1]
      rfl
    rw [h1, h2, h3, List.reverse_reverse]
  have hlen : ¬ (((x :: xs) ++ '.' :: '.' :: b).length ≤ 2) := by
    simp
    omega
  simp only [List.cons_append] at hnum hlen
  unfold parseLocTail
  rw [hbody, dropLastE_concat]
  simp only [List.cons_append, List.getD_cons_zero, hx.2.2.1, Bool.false_eq_true, if_false,
    hx.2.2.2, if_true, hnum, hlen, ite_false, ite_true]

/-- Helper: the location-field parse of a canonical field reduces to the
first-character chromosome check followed by the range check. -/
theorem parseLocField_mkLoc (scf : Bool) (c d : Char) (a b : List Char)
    (ha0 : a ≠ []) (hb0 : b ≠ [])
    (ha : ∀ ch ∈ a, ch ∈ digitChars) (hb : ∀ ch ∈ b, ch ∈ digitChars) :
    parseLocField (mkLoc scf c d a b) =
      (if c = '2' ∨ c = '3' ∨ c = '4' ∨ c = 'X' then
        (if strtoulVal b ≤ strtoulVal a then Except.error HdrErr.startNotBeforeEnd
         else Except.ok (rangeAsc (strtoulVal a) (strtoulVal b),
                        if c = 'X' ∨ c = '4' then [c] else [c, d]))
       else Except.error HdrErr.unknownChrom) := by
  by_cases hX : c = 'X' ∨ c = '4'
  · rcases hX with rfl | rfl
    · cases scf
      · rw [show parseLocField (mkLoc false 'X' d a b) =
            parseLocTail ['X'] (canonBody a b) from rfl]
        rw [parseLocTail_canonical ['X'] a b ha0 hb0 ha hb]
        rw [if_pos (show ('X' : Char) = '2' ∨ ('X' : Char) = '3' ∨ ('X' : Char) = '4' ∨
          ('X' : Char) = 'X' by decide)]
        rw [if_pos (show ('X' : Char) = 'X' ∨ ('X' : Char) = '4' by decide)]
      · rw [show parseLocField (mkLoc true 'X' d a b) =
            parseLocTail ['X'] (canonBody a b) from rfl]
        rw [parseLocTail_canonical ['X'] a b ha0 hb0 ha hb]
        rw [if_pos (show ('X' : Char) = '2' ∨ ('X' : Char) = '3' ∨ ('X' : Char) = '4' ∨
          ('X' : Char) = 'X' by decide)]
        rw [if_pos (show ('X' : Char) = 'X' ∨ ('X' : Char) = '4' by decide)]
    · cases scf
      · rw [show parseLocField (mkLoc false '4' d a b) =
            parseLocTail ['4'] (canonBody a b) from rfl]
        rw [parseLocTail_canonical ['4'] a b ha0 hb0 ha hb]
        rw [if_pos (show ('4' : Char) = '2' ∨ ('4' : Char) = '3' ∨ ('4' : Char) = '4' ∨
          ('4' : Char) = 'X' by decide)]
        rw [if_pos (show ('4' : Char) = 'X' ∨ ('4' : Char) = '4' by decide)]
      · rw [show parseLocField (mkLoc true '4' d a b) =
            parseLocTail ['4'] (canonBody a b) from rfl]
        rw [parseLocTail_canonical ['4'] a b ha0 hb0 ha hb]
        rw [if_pos (show ('4' : Char) = '2' ∨ ('4' : Char) = '3' ∨ ('4' : Char) = '4' ∨
          ('4' : Char) = 'X' by decide)]
        rw [if_pos (show ('4' : Char) = 'X' ∨ ('4' : Char) = '4' by decide)]
  · by_cases h23 : c = '3' ∨ c = '2'
    · rcases h23 with rfl | rfl
      · cases scf
        · rw [show parseLocField (mkLoc false '3' d a b) =
              parseLocTail ['3', d] (canonBody a b) from rfl]
          rw [parseLocTail_canonical ['3', d] a b ha0 hb0 ha hb]
          rw [if_pos (show ('3' : Char) = '2' ∨ ('3' : Char) = '3' ∨ ('3' : Char) = '4' ∨
            ('3' : Char) = 'X' by decide)]
          rw [if_neg (show ¬ (('3' : Char) = 'X' ∨ ('3' : Char) = '4') by decide)]
        · rw [show parseLocField (mkLoc true '3' d a b) =
              parseLocTail ['3', d] (canonBody a b) from rfl]
          rw [parseLocTail_canonical ['3', d] a b ha0 hb0 ha hb]
          rw [if_pos (show ('3' : Char) = '2' ∨ ('3' : Char) = '3' ∨ ('3' : Char) = '4' ∨
            ('3' : Char) = 'X' by decide)]
          rw [if_neg (show ¬ (('3' : Char) = 'X' ∨ ('3' : Char) = '4') by decide)]
      · cases scf
        · rw [show parseLocField (mkLoc false '2' d a b) =
              parseLocTail ['2', d] (canonBody a b) from rfl]
          rw [parseLocTail_canonical ['2', d] a b ha0 hb0 ha hb]
          rw [if_pos (show ('2' : Char) = '2' ∨ ('2' : Char) = '3' ∨ ('2' : Char) = '4' ∨
            ('2' : Char) = 'X' by decide)]
          rw [if_neg (show ¬ (('2' : Char) = 'X' ∨ ('2' : Char) = '4') by decide)]
        · rw [show parseLocField (mkLoc true '2' d a b) =
              parseLocTail ['2', d] (canonBody a b) from rfl]
          rw [parseLocTail_canonical ['2', d] a b ha0 hb0 ha hb]
          rw [if_pos (show ('2' : Char) = '2' ∨ ('2' : Char) = '3' ∨ ('2' : Char) = '4' ∨
            ('2' : Char) = 'X' by decide)]
          rw [if_neg (show ¬ (('2' : Char) = 'X' ∨ ('2' : Char) = '4') by decide)]
    · have hXor : ¬ (c = '2' ∨ c = '3' ∨ c = '4' ∨ c = 'X') := by tauto
      rw [if_neg hXor]
      cases scf
      · have hml : mkLoc false c d a b =
            locTag ++ '=' :: (c :: d :: ':' :: canonBody a b) := by
          unfold mkLoc
          rw [if_neg hX]
          simp
        rw [hml]
        have h1 : (locTag ++ '=' :: (c :: d :: ':' :: canonBody a b)).drop 4 =
            c :: d :: ':' :: canonBody a b := rfl
        have hsw : startsWithL (c :: d :: ':' :: canonBody a b) scfTag = false := by
          show (c == 'S' && ((d == 'c') && ((':' == 'f') &&
            startsWithL (canonBody a b) ['_']))) = false
          rw [show (':' == 'f') = false from rfl]
          simp
        unfold parseLocField
        simp only [h1, hsw, Bool.false_eq_true, if_false, List.getD_cons_zero]
        rw [if_neg hX, if_neg h23]
      · have hml : mkLoc true c d a b =
            locTag ++ '=' :: (scfTag ++ (c :: d :: ':' :: canonBody a b)) := by
          unfold mkLoc
          rw [if_neg hX]
          simp
        rw [hml]
        have h1 : (locTag ++ '=' :: (scfTag ++ (c :: d :: ':' :: canonBody a b))).drop 4 =
            scfTag ++ (c :: d :: ':' :: canonBody a b) := rfl
        have h2 : (scfTag ++ (c :: d :: ':' :: canonBody a b)).drop 4 =
            c :: d :: ':' :: canonBody a b := rfl
        unfold parseLocField
        simp only [h1, startsWithL_self_append, eq_self_iff_true, if_true, h2,
          List.getD_cons_zero]
        rw [if_neg hX, if_neg h23]


/-- Helper: the canonical header splits into exactly its three fields. -/
theorem splitCpp_mkHeader (scf : Bool) (c d : Char) (a b : List Char)
    (hc : c ≠ ' ') (hd : d ≠ ' ')
    (ha : ∀ ch ∈ a, ch ∈ digitChars) (hb : ∀ ch ∈ b, ch ∈ digitChars) :
    splitCpp ' ' (mkHeader scf c d a b) = [hdrName, mkLoc scf c d a b, parentField] := by
  have hns := mkLoc_no_space scf c d a b hc hd ha hb
  have hmlne : mkLoc scf c d a b ++ ' ' :: parentField ≠ [] := by
    unfold mkLoc
    simp
  unfold mkHeader
  rw [show splitCpp ' ' (hdrName ++ ' ' :: (mkLoc scf c d a b ++ ' ' :: parentField)) =
      splitGo ' ' [] (hdrName ++ ' ' :: (mkLoc scf c d a b ++ ' ' :: parentField)) from rfl]
  rw [splitGo_delim ' ' [] hdrName (mkLoc scf c d a b ++ ' ' :: parentField) (by decide) hmlne]
  rw [splitGo_delim ' ' [] (mkLoc scf c d a b) parentField hns (by decide)]
  rw [splitGo_all_ne ' ' [] parentField (by decide)]
  simp

/-- C8 amended: exact parse result on the spec's single-exon header
grammar `loc=[Scf_]CHR:A..B;` with a parent field and nonempty
digit-string bounds.  Parsing fails with the unknown-chromosome error
exactly when the leading character of the chromosome token is not one of
`2`, `3`, `4`, `X`; otherwise it fails with the start-not-before-end error
exactly when the strtoul value of `A` is at least that of `B`; otherwise
it succeeds with the enumerated coordinates, the chromosome token and the
FBgn digits taken by `substr(11, 7)` from the parent field.  The parse is
a pure function of the header, so it has no side effects. -/
theorem C8_canonical_header_parse_result (scf : Bool) (c d : Char) (a b : List Char)
    (hc : c ≠ ' ') (hd : d ≠ ' ') (ha0 : a ≠ []) (hb0 : b ≠ [])
    (ha : ∀ ch ∈ a, ch ∈ digitChars) (hb : ∀ ch ∈ b, ch ∈ digitChars) :
    parseHeader (mkHeader scf c d a b) =
      (if c = '2' ∨ c = '3' ∨ c = '4' ∨ c = 'X' then
        (if strtoulVal b ≤ strtoulVal a then Except.error HdrErr.startNotBeforeEnd
         else Except.ok (rangeAsc (strtoulVal a) (strtoulVal b),
                        (if c = 'X' ∨ c = '4' then [c] else [c, d]),
                        (parentField.drop 11).take 7))
       else Except.error HdrErr.unknownChrom) := by
  unfold parseHeader
  rw [splitCpp_mkHeader scf c d a b hc hd ha hb]
  rw [show parseFields [hdrName, mkLoc scf c d a b, parentField] [] [] =
      (match parseLocField (mkLoc scf c d a b) with
       | Except.error e => Except.error e
       | Except.ok pc => parseFields [parentField] ([] ++ pc.1) pc.2) from rfl]
  rw [parseLocField_mkLoc scf c d a b ha0 hb0 ha hb]
  by_cases hclass : c = '2' ∨ c = '3' ∨ c = '4' ∨ c = 'X'
  · rw [if_pos hclass, if_pos hclass]
    by_cases hle : strtoulVal b ≤ strtoulVal a
    · rw [if_pos hle, if_pos hle]
    · rw [if_neg hle, if_neg hle]
      rfl
  · rw [if_neg hclass, if_neg hclass]

/-- C8 amended witness: the canonical header with chromosome token 2L and
range 12..15 parses to the success case of the characterisation. -/
theorem C8_canonical_header_parse_result_witness :
    parseHeader (mkHeader false '2' 'L' (r"12".toList) (r"15".toList)) =
      (if ('2' : Char) = '2' ∨ ('2' : Char) = '3' ∨ ('2' : Char) = '4' ∨
          ('2' : Char) = 'X' then
        (if strtoulVal (r"15".toList) ≤ strtoulVal (r"12".toList) then
          Except.error HdrErr.startNotBeforeEnd
         else Except.ok (rangeAsc (strtoulVal (r"12".toList)) (strtoulVal (r"15".toList)),
                        (if ('2' : Char) = 'X' ∨ ('2' : Char) = '4' then ['2'] else ['2', 'L']),
                        (parentField.drop 11).take 7))
       else Except.error HdrErr.unknownChrom) :=
  C8_canonical_header_parse_result false '2' 'L' (r"12".toList) (r"15".toList)
    (by decide) (by decide) (by decide) (by decide) (by decide) (by decide)


/-- Helper: classifying an empty sequence emits nothing and reads no
position. -/
theorem getFFsites_nil (chr fbgn : List Char) (pos : List Nat) :
    getFFsites chr fbgn [] pos = some [] := rfl

/-- Helper: a takeWhile prefix is no longer than the list. -/
theorem takeWhile_len_le (p : Nat → Bool) (l : List Nat) :
    (l.takeWhile p).length ≤ l.length := by
  induction l with
  | nil => exact Nat.le_refl 0
  | cons a t ih =>
    cases hp : p a
    · rw [List.takeWhile_cons, hp]
      simp
    · rw [List.takeWhile_cons, hp]
      simp only [if_pos, List.length_cons]
      omega

/-- Helper: the overlap count never exceeds the scanned vector's length. -/
theorem overlapCountFwd_le (ps : List Nat) (b : Nat) : overlapCountFwd ps b ≤ ps.length := by
  unfold overlapCountFwd
  calc (ps.reverse.takeWhile (fun p => decide (b ≤ p))).length
      ≤ ps.reverse.length := takeWhile_len_le _ _
    _ = ps.length := List.length_reverse ps

/-- Helper: the leading overlap count never exceeds the vector's length. -/
theorem overlapCountRev_le (ps : List Nat) (b : Nat) : overlapCountRev ps b ≤ ps.length := by
  unfold overlapCountRev
  exact takeWhile_len_le _ _

/-- Helper: the truncation length exceeds the overlap count by at most the
rounding remainder. -/
theorem delLengthFun_le (oc : Nat) : delLengthFun oc ≤ oc + 2 := by
  unfold delLengthFun
  omega

/-- Helper: wrap-free size_t subtraction. -/
theorem subSz_of_le (aa bb : Nat) (hle : bb ≤ aa) (ha : aa < szMod) : subSz aa bb = aa - bb := by
  unfold subSz
  have h1 : aa + szMod - bb = (aa - bb) + szMod := by omega
  rw [h1, Nat.add_mod_right]
  exact Nat.mod_eq_of_lt (by omega)

/-- Helper: wrapped size_t subtraction lands past any realistic length. -/
theorem subSz_of_gt (aa bb : Nat) (hgt : aa < bb) (hbb : bb < szMod) :
    subSz aa bb = aa + szMod - bb := by
  unfold subSz
  exact Nat.mod_eq_of_lt (by omega)

/-- Helper: shape of the resolver for a forward candidate against a
complement-stored previous record, run with the sequence cleared. -/
theorem resolveCandFwdPrevRev_shape (st : FFState) (cp : List Nat)
    (curChr curFBgn : List Char) (c0 : Nat) (st2 : FFState)
    (hseq : st.sequence_ = []) (hpne : st.positions_ ≠ [])
    (h : resolveCandFwdPrevRev st cp curChr curFBgn c0 = some st2) :
    headerShape cp st2 := by
  have hplen : 0 < st.positions_.length := List.length_pos.mpr hpne
  unfold resolveCandFwdPrevRev at h
  simp only [hseq, List.drop_nil, getFFsites_nil] at h
  by_cases h1 : delLengthFun (overlapCountRev st.positions_ c0) < st.positions_.length ∧
      delLengthFun (overlapCountRev st.positions_ c0) < cp.length
  · rw [if_pos h1] at h
    cases hg : (cp.drop (delLengthFun (overlapCountRev st.positions_ c0))).getLast? with
    | none =>
      rw [hg] at h
      exact Option.noConfusion h
    | some e2 =>
      rw [hg] at h
      injection h with h2
      subst h2
      refine ⟨rfl, ?_⟩
      by_cases hdl0 : delLengthFun (overlapCountRev st.positions_ c0) = 0
      · refine Or.inr (Or.inl ⟨hdl0, ?_⟩)
        show cp.drop (delLengthFun (overlapCountRev st.positions_ c0)) = cp
        rw [hdl0, List.drop_zero]
      · refine Or.inr (Or.inr ⟨hdl0, ?_, Or.inl ?_⟩)
        · show (cp.drop (delLengthFun (overlapCountRev st.positions_ c0))).length +
            delLengthFun (overlapCountRev st.positions_ c0) = cp.length
          rw [List.length_drop]
          omega
        · show 0 + delLengthFun (overlapCountRev st.positions_ c0) ≤ cp.length
          omega
  · rw [if_neg h1] at h
    by_cases h2 : st.positions_.length ≤ delLengthFun (overlapCountRev st.positions_ c0)
    · rw [if_pos h2] at h
      by_cases h3 : cp.length ≤ delLengthFun (overlapCountRev st.positions_ c0)
      · rw [if_pos h3] at h
        injection h with h4
        subst h4
        exact ⟨rfl, Or.inl rfl⟩
      · rw [if_neg h3] at h
        cases hg : (cp.drop (delLengthFun (overlapCountRev st.positions_ c0))).getLast? with
        | none =>
          rw [hg] at h
          exact Option.noConfusion h
        | some e2 =>
          rw [hg] at h
          injection h with h4
          subst h4
          refine ⟨rfl, Or.inr (Or.inr ⟨?_, ?_, Or.inl ?_⟩)⟩
          · show ¬ (delLengthFun (overlapCountRev st.positions_ c0) = 0)
            omega
          · show (cp.drop (delLengthFun (overlapCountRev st.positions_ c0))).length +
              delLengthFun (overlapCountRev st.positions_ c0) = cp.length
            rw [List.length_drop]
            omega
          · show 0 + delLengthFun (overlapCountRev st.positions_ c0) ≤ cp.length
            omega
    · rw [if_neg h2] at h
      injection h with h4
      subst h4
      exact ⟨rfl, Or.inl rfl⟩

/-- Helper: resizing the cleared sequence by zero keeps it empty. -/
theorem resizeDown_nil_zero : resizeDown ([] : List Char) 0 = some [] := rfl

/-- Helper: any genuine resize of the cleared sequence underflows
`size_t` and throws `std::length_error` (modelled as `none`). -/
theorem resizeDown_nil_ne (dl : Nat) (hdl : dl ≠ 0) : resizeDown ([] : List Char) dl = none := by
  unfold resizeDown
  rw [if_neg (by simp only [List.length_nil, Nat.le_zero]; exact hdl)]

/-- Helper: shape of the resolver for a forward candidate against a
forward-stored previous record, run with the sequence cleared. -/
theorem resolveFwdFwd_shape (st : FFState) (cp : List Nat)
    (curChr curFBgn : List Char) (c0 : Nat) (st2 : FFState)
    (hseq : st.sequence_ = []) (hpne : st.positions_ ≠ [])
    (h : resolveFwdFwd st cp curChr curFBgn c0 = some st2) :
    headerShape cp st2 := by
  have hplen : 0 < st.positions_.length := List.length_pos.mpr hpne
  unfold resolveFwdFwd at h
  simp only [hseq] at h
  by_cases h1 : delLengthFun (overlapCountFwd st.positions_ c0) < st.positions_.length ∧
      delLengthFun (overlapCountFwd st.positions_ c0) < cp.length
  · rw [if_pos h1] at h
    by_cases hdl0 : delLengthFun (overlapCountFwd st.positions_ c0) = 0
    · rw [hdl0] at h
      simp only [resizeDown_nil_zero, getFFsites_nil, List.drop_zero] at h
      cases hg : cp.getLast? with
      | none =>
        rw [hg] at h
        exact Option.noConfusion h
      | some e2 =>
        rw [hg] at h
        injection h with h4
        subst h4
        exact ⟨rfl, Or.inr (Or.inl ⟨rfl, rfl⟩)⟩
    · rw [resizeDown_nil_ne _ hdl0] at h
      exact Option.noConfusion h
  · rw [if_neg h1] at h
    by_cases h2 : st.positions_.length ≤ delLengthFun (overlapCountFwd st.positions_ c0)
    · rw [if_pos h2] at h
      by_cases h3 : cp.length ≤ delLengthFun (overlapCountFwd st.positions_ c0)
      · rw [if_pos h3] at h
        injection h with h4
        subst h4
        exact ⟨rfl, Or.inl rfl⟩
      · rw [if_neg h3] at h
        cases hg : (cp.drop (delLengthFun (overlapCountFwd st.positions_ c0))).getLast? with
        | none =>
          rw [hg] at h
          exact Option.noConfusion h
        | some e2 =>
          rw [hg] at h
          injection h with h4
          subst h4
          refine ⟨rfl, Or.inr (Or.inr ⟨?_, ?_, Or.inl ?_⟩)⟩
          · show ¬ (delLengthFun (overlapCountFwd st.positions_ c0) = 0)
            omega
          · show (cp.drop (delLengthFun (overlapCountFwd st.positions_ c0))).length +
              delLengthFun (overlapCountFwd st.positions_ c0) = cp.length
            rw [List.length_drop]
            omega
          · show (cp.length - delLengthFun (overlapCountFwd st.positions_ c0)) +
              delLengthFun (overlapCountFwd st.positions_ c0) ≤ cp.length
            omega
    · rw [if_neg h2] at h
      by_cases hdl0 : delLengthFun (overlapCountFwd st.positions_ c0) = 0
      · rw [hdl0] at h
        simp only [resizeDown_nil_zero, getFFsites_nil] at h
        injection h with h4
        subst h4
        exact ⟨rfl, Or.inl rfl⟩
      · rw [resizeDown_nil_ne _ hdl0] at h
        exact Option.noConfusion h

/-- Helper: shape of the resolver for a complemented candidate against a
forward-stored previous record, run with the sequence cleared; the
`size_t` wrap at line 388 is covered by the address-space bounds. -/
theorem resolveCandRevPrevFwd_shape (st : FFState) (cp : List Nat)
    (curChr curFBgn : List Char) (cb : Nat) (st2 : FFState)
    (hseq : st.sequence_ = []) (hpne : st.positions_ ≠ [])
    (hP : st.positions_.length < 2 ^ 62) (hcp : cp.length < 2 ^ 62)
    (h : resolveCandRevPrevFwd st cp curChr curFBgn cb = some st2) :
    headerShape cp st2 := by
  have hplen : 0 < st.positions_.length := List.length_pos.mpr hpne
  unfold resolveCandRevPrevFwd at h
  simp only [hseq] at h
  by_cases h1 : delLengthFun (overlapCountFwd st.positions_ cb) < st.positions_.length ∧
      delLengthFun (overlapCountFwd st.positions_ cb) < cp.length
  · rw [if_pos h1] at h
    by_cases hdl0 : delLengthFun (overlapCountFwd st.positions_ cb) = 0
    · rw [hdl0] at h
      simp only [resizeDown_nil_zero, getFFsites_nil, Nat.sub_zero, List.take_length] at h
      cases hg : cp.get? 0 with
      | none =>
        rw [hg] at h
        exact Option.noConfusion h
      | some e2 =>
        rw [hg] at h
        injection h with h4
        subst h4
        exact ⟨rfl, Or.inr (Or.inl ⟨rfl, rfl⟩)⟩
    · rw [resizeDown_nil_ne _ hdl0] at h
      exact Option.noConfusion h
  · rw [if_neg h1] at h
    by_cases h2 : st.positions_.length ≤ delLengthFun (overlapCountFwd st.positions_ cb)
    · rw [if_pos h2] at h
      by_cases h3 : cp.length ≤ delLengthFun (overlapCountFwd st.positions_ cb)
      · rw [if_pos h3] at h
        injection h with h4
        subst h4
        exact ⟨rfl, Or.inl rfl⟩
      · rw [if_neg h3] at h
        cases hg : (cp.take (cp.length - delLengthFun (overlapCountFwd st.positions_ cb))).get? 0 with
        | none =>
          rw [hg] at h
          exact Option.noConfusion h
        | some e2 =>
          rw [hg] at h
          injection h with h4
          subst h4
          have hocle := overlapCountFwd_le st.positions_ cb
          have hdle := delLengthFun_le (overlapCountFwd st.positions_ cb)
          have htl : (cp.take (cp.length - delLengthFun (overlapCountFwd st.positions_ cb))).length
              = cp.length - delLengthFun (overlapCountFwd st.positions_ cb) := by
            rw [List.length_take]
            omega
          have hsz : szMod = 18446744073709551616 := rfl
          have hp62 : (2 : Nat) ^ 62 = 4611686018427387904 := by norm_num
          refine ⟨rfl, Or.inr (Or.inr ⟨?_, ?_, ?_⟩)⟩
          · show ¬ (delLengthFun (overlapCountFwd st.positions_ cb) = 0)
            omega
          · show (cp.take (cp.length - delLengthFun (overlapCountFwd st.positions_ cb))).length +
              delLengthFun (overlapCountFwd st.positions_ cb) = cp.length
            rw [htl]
            omega
          · show subSz (cp.take (cp.length - delLengthFun (overlapCountFwd st.positions_ cb))).length
                (delLengthFun (overlapCountFwd st.positions_ cb)) +
                delLengthFun (overlapCountFwd st.positions_ cb) ≤ cp.length ∨
              cp.length < subSz
                (cp.take (cp.length - delLengthFun (overlapCountFwd st.positions_ cb))).length
                (delLengthFun (overlapCountFwd st.positions_ cb))
            rw [htl]
            by_cases hw : delLengthFun (overlapCountFwd st.positions_ cb) ≤
                cp.length - delLengthFun (overlapCountFwd st.positions_ cb)
            · left
              rw [subSz_of_le _ _ hw (by omega)]
              omega
            · right
              rw [subSz_of_gt _ _ (by omega) (by omega)]
              omega
    · rw [if_neg h2] at h
      by_cases hdl0 : delLengthFun (overlapCountFwd st.positions_ cb) = 0
      · rw [hdl0] at h
        simp only [resizeDown_nil_zero, getFFsites_nil] at h
        injection h with h4
        subst h4
        exact ⟨rfl, Or.inl rfl⟩
      · rw [resizeDown_nil_ne _ hdl0] at h
        exact Option.noConfusion h

/-- Helper: shape of the resolver for a complemented candidate against a
complement-stored previous record, run with the sequence cleared. -/
theorem resolveCandRevPrevRev_shape (st : FFState) (cp : List Nat)
    (curChr curFBgn : List Char) (cb : Nat) (st2 : FFState)
    (hseq : st.sequence_ = []) (hpne : st.positions_ ≠ [])
    (h : resolveCandRevPrevRev st cp curChr curFBgn cb = some st2) :
    headerShape cp st2 := by
  have hplen : 0 < st.positions_.length := List.length_pos.mpr hpne
  unfold resolveCandRevPrevRev at h
  simp only [hseq, List.drop_nil, getFFsites_nil] at h
  by_cases h1 : delLengthFun (overlapCountRev st.positions_ cb) < st.positions_.length ∧
      delLengthFun (overlapCountRev st.positions_ cb) < cp.length
  · rw [if_pos h1] at h
    cases hg : (cp.take (cp.length - delLengthFun (overlapCountRev st.positions_ cb))).get? 0 with
    | none =>
      rw [hg] at h
      exact Option.noConfusion h
    | some e2 =>
      rw [hg] at h
      injection h with h4
      subst h4
      refine ⟨rfl, ?_⟩
      by_cases hdl0 : delLengthFun (overlapCountRev st.positions_ cb) = 0
      · refine Or.inr (Or.inl ⟨hdl0, ?_⟩)
        show cp.take (cp.length - delLengthFun (overlapCountRev st.positions_ cb)) = cp
        rw [hdl0, Nat.sub_zero, List.take_length]
      · refine Or.inr (Or.inr ⟨hdl0, ?_, Or.inl ?_⟩)
        · show (cp.take (cp.length - delLengthFun (overlapCountRev st.positions_ cb))).length +
            delLengthFun (overlapCountRev st.positions_ cb) = cp.length
          rw [List.length_take]
          omega
        · show 0 + delLengthFun (overlapCountRev st.positions_ cb) ≤ cp.length
          omega
  · rw [if_neg h1] at h
    by_cases h2 : st.positions_.length ≤ delLengthFun (overlapCountRev st.positions_ cb)
    · rw [if_pos h2] at h
      by_cases h3 : cp.length ≤ delLengthFun (overlapCountRev st.positions_ cb)
      · rw [if_pos h3] at h
        injection h with h4
        subst h4
        exact ⟨rfl, Or.inl rfl⟩
      · rw [if_neg h3] at h
        cases hg : (cp.take (cp.length - delLengthFun (overlapCountRev st.positions_ cb))).get? 0 with
        | none =>
          rw [hg] at h
          exact Option.noConfusion h
        | some e2 =>
          rw [hg] at h
          injection h with h4
          subst h4
          refine ⟨rfl, Or.inr (Or.inr ⟨?_, ?_, Or.inl ?_⟩)⟩
          · show ¬ (delLengthFun (overlapCountRev st.positions_ cb) = 0)
            omega
          · show (cp.take (cp.length - delLengthFun (overlapCountRev st.positions_ cb))).length +
              delLengthFun (overlapCountRev st.positions_ cb) = cp.length
            rw [List.length_take]
            omega
          · show 0 + delLengthFun (overlapCountRev st.positions_ cb) ≤ cp.length
            omega
    · rw [if_neg h2] at h
      injection h with h4
      subst h4
      exact ⟨rfl, Or.inl rfl⟩

/-- Helper: every successful header-processing step, run with the sequence
already cleared (line 210), leaves the state in one of the three shapes
that the subsequent sequence-line consumption turns into equal lengths. -/
theorem processHeader_shape (st : FFState) (cp : List Nat) (curChr curFBgn : List Char)
    (st2 : FFState) (hseq : st.sequence_ = [])
    (hP : st.positions_.length < 2 ^ 62) (hcp : cp.length < 2 ^ 62)
    (h : processHeader st cp curChr curFBgn = some st2) :
    headerShape cp st2 := by
  unfold processHeader at h
  by_cases hc : curChr ≠ st.chr_
  · rw [if_pos hc, hseq, getFFsites_nil] at h
    cases he : endOf cp with
    | none =>
      rw [he] at h
      exact Option.noConfusion h
    | some e2 =>
      rw [he] at h
      injection h with h4
      subst h4
      exact ⟨rfl, Or.inr (Or.inl ⟨rfl, rfl⟩)⟩
  · rw [if_neg hc] at h
    by_cases hp0 : st.positions_ = []
    · rw [if_pos hp0] at h
      cases he : endOf cp with
      | none =>
        rw [he] at h
        exact Option.noConfusion h
      | some e2 =>
        rw [he] at h
        injection h with h4
        subst h4
        exact ⟨hseq, Or.inr (Or.inl ⟨rfl, rfl⟩)⟩
    · rw [if_neg hp0] at h
      cases hg1 : cp.get? 0 with
      | none =>
        rw [hg1] at h
        exact Option.noConfusion h
      | some c0 =>
        rw [hg1] at h
        cases hg2 : cp.getLast? with
        | none =>
          rw [hg2] at h
          exact Option.noConfusion h
        | some cb =>
          rw [hg2] at h
          cases hg3 : st.positions_.get? 0 with
          | none =>
            rw [hg3] at h
            exact Option.noConfusion h
          | some p0 =>
            rw [hg3] at h
            cases hg4 : st.positions_.getLast? with
            | none =>
              rw [hg4] at h
              exact Option.noConfusion h
            | some pb =>
              rw [hg4] at h
              have h' : (if c0 < cb then
                  if c0 < st.end_ then
                    if p0 < pb then resolveFwdFwd st cp curChr curFBgn c0
                    else resolveCandFwdPrevRev st cp curChr curFBgn c0
                  else flushAdopt st cp curChr curFBgn cb
                else
                  if cb < st.end_ then
                    if p0 < pb then resolveCandRevPrevFwd st cp curChr curFBgn cb
                    else resolveCandRevPrevRev st cp curChr curFBgn cb
                  else flushAdopt st cp curChr curFBgn c0) = some st2 := h
              by_cases ho1 : c0 < cb
              · rw [if_pos ho1] at h'
                by_cases ho2 : c0 < st.end_
                · rw [if_pos ho2] at h'
                  by_cases ho3 : p0 < pb
                  · rw [if_pos ho3] at h'
                    exact resolveFwdFwd_shape st cp curChr curFBgn c0 st2 hseq hp0 h'
                  · rw [if_neg ho3] at h'
                    exact resolveCandFwdPrevRev_shape st cp curChr curFBgn c0 st2 hseq hp0 h'
                · rw [if_neg ho2] at h'
                  unfold flushAdopt at h'
                  rw [hseq, getFFsites_nil] at h'
                  injection h' with h4
                  subst h4
                  exact ⟨rfl, Or.inr (Or.inl ⟨rfl, rfl⟩)⟩
              · rw [if_neg ho1] at h'
                by_cases ho2 : cb < st.end_
                · rw [if_pos ho2] at h'
                  by_cases ho3 : p0 < pb
                  · rw [if_pos ho3] at h'
                    exact resolveCandRevPrevFwd_shape st cp curChr curFBgn cb st2 hseq hp0 hP hcp h'
                  · rw [if_neg ho3] at h'
                    exact resolveCandRevPrevRev_shape st cp curChr curFBgn cb st2 hseq hp0 h'
                · rw [if_neg ho2] at h'
                  unfold flushAdopt at h'
                  rw [hseq, getFFsites_nil] at h'
                  injection h' with h4
                  subst h4
                  exact ⟨rfl, Or.inr (Or.inl ⟨rfl, rfl⟩)⟩

/-- C4: at every point after a record's header has been parsed and its
sequence line consumed — including after any truncation applied during
overlap resolution, on either end and for either strand orientation — the
pending record's coordinate list and its nucleotide sequence have equal
length.  Formally: any successful `getNextRecord_` call (header processed
and the record's sequence line consumed) on a well-formed record (sequence
line as long as its coordinate list) leaves `positions_` and `sequence_`
with equal lengths; the two size bounds say the in-memory vectors fit a
64-bit address space, so the `size_t` wrap at line 388 cannot land back
inside the line.  Every truncating path either preserves the equality or
aborts beforehand (the `resize` underflow of lines 252/283 on the sequence
cleared at line 210, or an out-of-range `erase` at line 473). -/
theorem C4_record_step_preserves_length_equality (st : FFState) (r : Record) (st2 : FFState)
    (hwf : r.seqLine.length = r.pos.length)
    (hP : st.positions_.length < 2 ^ 62) (hcp : r.pos.length < 2 ^ 62)
    (h : getNextRecordStep st r = some st2) :
    st2.positions_.length = st2.sequence_.length := by
  unfold getNextRecordStep at h
  cases hh : processHeader { st with sequence_ := [] } r.pos r.chr r.fbgn with
  | none =>
    rw [hh] at h
    exact Option.noConfusion h
  | some st1 =>
    rw [hh] at h
    have hps : processSeqLine st1 r.seqLine = some st2 := h
    have hshape : headerShape r.pos st1 :=
      processHeader_shape { st with sequence_ := [] } r.pos r.chr r.fbgn st1 rfl hP hcp hh
    obtain ⟨hs1seq, hdisj⟩ := hshape
    unfold processSeqLine at hps
    by_cases hp0 : st1.positions_ = []
    · rw [if_pos hp0] at hps
      injection hps with h4
      subst h4
      rw [hp0, hs1seq]
      rfl
    · rw [if_neg hp0] at hps
      rcases hdisj with hP1 | ⟨hdl0, hpos⟩ | ⟨hdln, hlen, hds⟩
      · exact absurd hP1 hp0
      · rw [if_neg (fun hne => hne hdl0)] at hps
        injection hps with h4
        subst h4
        show st1.positions_.length = r.seqLine.length
        rw [hpos]
        omega
      · rw [if_pos hdln] at hps
        cases he : eraseCpp r.seqLine st1.delStart_ st1.delLength_ with
        | none =>
          rw [he] at hps
          exact Option.noConfusion hps
        | some l2 =>
          rw [he] at hps
          injection hps with h4
          subst h4
          unfold eraseCpp at he
          by_cases hle : st1.delStart_ ≤ r.seqLine.length
          · rw [if_pos hle] at he
            injection he with he2
            subst he2
            show st1.positions_.length =
              (r.seqLine.take st1.delStart_ ++
                r.seqLine.drop (st1.delStart_ + st1.delLength_)).length
            rw [List.length_append, List.length_take, List.length_drop]
            rcases hds with hds1 | hds2
            · omega
            · omega
          · rw [if_neg hle] at he
            exact Option.noConfusion he

/-- C4 witness: the record step on a concrete overlapping pair — a
complement-stored pending record at 100..105 and a forward candidate at
103..110 with an 8-base line — truncates three leading coordinates and
three leading bases and indeed leaves five coordinates against five
bases. -/
theorem C4_record_step_preserves_length_equality_witness :
    getNextRecordStep c4wst c4wrec = some c4wres ∧
    c4wres.positions_.length = c4wres.sequence_.length :=
  ⟨by decide,
   C4_record_step_preserves_length_equality c4wst c4wrec c4wres (by decide) (by decide)
     (by decide) (by decide)⟩

end PolyDivExtract
